import Mathlib

/-
  Verification development for the shadowsocks logging core.

  The definitions below are a shallow embedding of the logger header
  (class SsLogger, class TupleElementPrinter, the VisitImpl recursion and
  the formatting template) and of the operator flag constants from the
  types header.  C strings are modelled as lists of characters; reading
  the terminating NUL (or, in the one reachable corner, a byte past it)
  is modelled as reading the character with code 0.  The while loop of
  the C for statement is embedded with an explicit fuel argument that
  ticks once per loop iteration; since every iteration advances the scan
  position by at least one, a fuel equal to the length of the format
  string is always sufficient (proved below as formatAux_isSome).
-/

namespace Shadowsocks

/-- Operator flag from ss_types.h: OPERATOR_SUCCESS. -/
def OPERATOR_SUCCESS : Int := 0

/-- Operator flag from ss_types.h: OPERATOR_FAILURE, the code passed to exit. -/
def OPERATOR_FAILURE : Int := -1

/-- One call-site argument of the variadic logging templates.  The C++
side is a heterogeneous tuple; the kinds the claims need are text and
unsigned integers, wrapped in a closed sum so that the runtime indexed
access of VisitImpl becomes ordinary list indexing. -/
inductive Arg where
  | str : List Char → Arg
  | num : Nat → Arg
deriving DecidableEq

/-- Stream insertion of one tuple element, as done by
TupleElementPrinter::operator().  With the basefield at its default the
stream renders integers in decimal; with std::ios::hex set it renders
them as lowercase hexadecimal digits (no 0x prefix).  Text is unaffected
by the basefield. -/
def Arg.render : Arg → Bool → List Char
  | .str s, _ => s
  | .num n, false => Nat.toDigits 10 n
  | .num n, true => Nat.toDigits 16 n

/-- State of TupleElementPrinter: whether the attached stream currently
has std::ios::hex in its basefield, and whether _defaultFlags holds a
nonzero flag set to restore after the next insertion. -/
structure Printer where
  hexBase : Bool
  defaultFlags : Bool
deriving DecidableEq

/-- Printer as constructed at the top of SsLogger::format: stream at the
default (decimal) basefield, _defaultFlags empty. -/
def Printer.init : Printer := ⟨false, false⟩

/-- Modelled from the spec: the body of TupleElementPrinter::setFlag is
not under src/ (only the declaration is).  Per the spec the %x sequence
"sets a one-shot render as hexadecimal flag on the next consumed
argument": setFlag puts std::ios::hex on the stream at once and records
the default flags in _defaultFlags so that operator() restores them
after the next insertion. -/
def Printer.setFlag (_p : Printer) : Printer := ⟨true, true⟩

/-- The tail of TupleElementPrinter::operator(): after inserting a value
the printer restores _defaultFlags onto the stream (leaving the default,
decimal basefield) and clears them; with no saved flags it is inert. -/
def Printer.afterPrint (p : Printer) : Printer :=
  if p.defaultFlags then ⟨false, false⟩ else p

/-- The recursive runtime tuple access, VisitImpl<I>::visit.  Level I+1
applies the function to element I when the index matches and recurses to
level I otherwise; level 0 is assert(false), modelled as none. -/
def VisitImpl.visit {α : Type} : Nat → List Arg → Nat → (Arg → α) → Option α
  | 0, _, _, _ => none
  | i + 1, t, idx, f =>
    if idx = i then some (f (t.getD i (Arg.str []))) else VisitImpl.visit i t idx f

/-- The visit wrapper: starts the recursion at the arity of the tuple. -/
def visit {α : Type} (t : List Arg) (idx : Nat) (f : Arg → α) : Option α :=
  VisitImpl.visit t.length t idx f

/-- NUL character, the terminator of a C string. -/
def nulChar : Char := Char.ofNat 0

/-- Indexing into the format string, fmt[i]; positions at or past the
length read the terminating NUL. -/
def charAt (fmt : List Char) (i : Nat) : Char := fmt.getD i nulChar

/-- Length of the leading alphanumeric run of a character list, with the
C locale isalnum classification. -/
def alnumRun : List Char → Nat
  | [] => 0
  | c :: cs => if c.isAlphanum then alnumRun cs + 1 else 0

/-- The while loop inside the output lambda: starting at position j, the
smallest position at or after j holding a non-alphanumeric character
(the NUL terminator stops the scan at the end of the string). -/
def skipAlnum (fmt : List Char) (j : Nat) : Nat := j + alnumRun (fmt.drop j)

/-- The scanning loop of SsLogger::format.  One fuel unit is spent per
iteration of the C for loop; i is the loop variable, index the count of
consumed arguments, pr the printer state.  The result carries the
rendered text and the final value of index; none records that the
assertion inside VisitImpl<0> fired (or that the fuel ran out, which
formatAux_isSome below rules out for sufficient fuel). -/
def formatAux (fmt : List Char) (tuple : List Arg) :
    Nat → Nat → Nat → Printer → Option (List Char × Nat)
  | 0, i, index, _ =>
    if i < fmt.length then none else some ([], index)
  | fuel + 1, i, index, pr =>
    if i < fmt.length then
      let c := charAt fmt i
      if c = '%' then
        let c2 := charAt fmt (i + 1)
        if c2 = '%' then
          (formatAux fmt tuple fuel (i + 2) index pr).map (fun r => ('%' :: r.1, r.2))
        else
          let pre : List Char := if c2 = 'x' then ['0', 'x'] else []
          let pr1 : Printer := if c2 = 'x' then pr.setFlag else pr
          if index < tuple.length then
            match visit tuple index (fun a => a.render pr1.hexBase) with
            | none => none
            | some chunk =>
              (formatAux fmt tuple fuel (skipAlnum fmt (i + 2)) (index + 1) pr1.afterPrint).map
                (fun r => (pre ++ chunk ++ r.1, r.2))
          else
            (formatAux fmt tuple fuel (i + 2) index pr1.afterPrint).map
              (fun r => (pre ++ '%' :: r.1, r.2))
      else
        (formatAux fmt tuple fuel (i + 1) index pr).map (fun r => (c :: r.1, r.2))
    else some ([], index)

/-- SsLogger::format run from the start with sufficient fuel: rendered
text together with the number of arguments consumed. -/
def formatRun (fmt : List Char) (args : List Arg) : Option (List Char × Nat) :=
  formatAux fmt args fmt.length 0 0 Printer.init

/-- The rendered text of SsLogger::format. -/
def format (fmt : List Char) (args : List Arg) : Option (List Char) :=
  (formatRun fmt args).map Prod.fst

/-- The rendered text as a plain list; format_isSome below shows the
default branch of getD is never taken. -/
def formatStr (fmt : List Char) (args : List Arg) : List Char :=
  (format fmt args).getD []

/-- Refinement model written from the words of the spec for the argument
consumption discipline: the engine "consumes arguments strictly left to
right, one argument per substitution point, in the order both the
arguments and the substitution points appear".  It scans exactly like
formatAux but holds the not-yet-consumed arguments as a list whose head
is taken at each substitution point; the result carries the rendered
text and the remaining arguments.  formatAux_eq_list below proves the
indexed engine equal to this model. -/
def formatAuxL (fmt : List Char) :
    Nat → Nat → List Arg → Printer → Option (List Char × List Arg)
  | 0, i, rem, _ =>
    if i < fmt.length then none else some ([], rem)
  | fuel + 1, i, rem, pr =>
    if i < fmt.length then
      let c := charAt fmt i
      if c = '%' then
        let c2 := charAt fmt (i + 1)
        if c2 = '%' then
          (formatAuxL fmt fuel (i + 2) rem pr).map (fun r => ('%' :: r.1, r.2))
        else
          let pre : List Char := if c2 = 'x' then ['0', 'x'] else []
          let pr1 : Printer := if c2 = 'x' then pr.setFlag else pr
          match rem with
          | a :: rest =>
            (formatAuxL fmt fuel (skipAlnum fmt (i + 2)) rest pr1.afterPrint).map
              (fun r => (pre ++ a.render pr1.hexBase ++ r.1, r.2))
          | [] =>
            (formatAuxL fmt fuel (i + 2) [] pr1.afterPrint).map
              (fun r => (pre ++ '%' :: r.1, r.2))
      else
        (formatAuxL fmt fuel (i + 1) rem pr).map (fun r => (c :: r.1, r.2))
    else some ([], rem)

/-- The severity enumeration SsLogger::LoggerLevel. -/
inductive LoggerLevel where
  | ll_verbose
  | ll_debug
  | ll_info
  | ll_warning
  | ll_error
  | ll_emergency
deriving DecidableEq

/-- The numeric rank of each level, the enumerator values of the C++
enum (0x00, 0x10, 0x20, 0x40, 0x80, 0xff). -/
def LoggerLevel.rank : LoggerLevel → Nat
  | .ll_verbose => 0x00
  | .ll_debug => 0x10
  | .ll_info => 0x20
  | .ll_warning => 0x40
  | .ll_error => 0x80
  | .ll_emergency => 0xff

/-- Observable outcome of one logging call: the message delivered to the
output destination (none when filtered by the threshold), the process
termination status it triggers (none when the call returns), and the
value returned to the caller (none for the void entry points and for a
call that terminates instead of returning). -/
structure LogOutcome where
  written : Option (List Char)
  exitCode : Option Int
  returned : Option (List Char)
deriving DecidableEq

/-- Modelled from the spec: the private writer
SsLogger::log(LoggerLevel, std::string) is declared in the header but
its body is not under src/.  Per the spec a logger accepts a message iff
the rank of its level is at least the rank of the active threshold, and
writes the rendered message to the output destination. -/
def SsLogger.logWrite (threshold level : LoggerLevel) (message : List Char) :
    Option (List Char) :=
  if threshold.rank ≤ level.rank then some message else none

/-- SsLogger::verbose: formats, hands the text to the writer, returns
nothing (the template is declared void). -/
def SsLogger.verbose (threshold : LoggerLevel) (fmt : List Char) (args : List Arg) :
    LogOutcome :=
  ⟨SsLogger.logWrite threshold .ll_verbose (formatStr fmt args), none, none⟩

/-- SsLogger::debug, void. -/
def SsLogger.debug (threshold : LoggerLevel) (fmt : List Char) (args : List Arg) :
    LogOutcome :=
  ⟨SsLogger.logWrite threshold .ll_debug (formatStr fmt args), none, none⟩

/-- SsLogger::info, void. -/
def SsLogger.info (threshold : LoggerLevel) (fmt : List Char) (args : List Arg) :
    LogOutcome :=
  ⟨SsLogger.logWrite threshold .ll_info (formatStr fmt args), none, none⟩

/-- SsLogger::warning, void. -/
def SsLogger.warning (threshold : LoggerLevel) (fmt : List Char) (args : List Arg) :
    LogOutcome :=
  ⟨SsLogger.logWrite threshold .ll_warning (formatStr fmt args), none, none⟩

/-- SsLogger::error, void. -/
def SsLogger.error (threshold : LoggerLevel) (fmt : List Char) (args : List Arg) :
    LogOutcome :=
  ⟨SsLogger.logWrite threshold .ll_error (formatStr fmt args), none, none⟩

/-- SsLogger::emergency: formats, hands the text to the writer, then
calls std::exit(OPERATOR_FAILURE) unconditionally; it never returns. -/
def SsLogger.emergency (threshold : LoggerLevel) (fmt : List Char) (args : List Arg) :
    LogOutcome :=
  ⟨SsLogger.logWrite threshold .ll_emergency (formatStr fmt args),
   some OPERATOR_FAILURE, none⟩

/-- The level-parameterized template
SsLogger::log(LoggerLevel, Format, Args...): formats the message, hands
it to the writer, exits with OPERATOR_FAILURE when the level is
LL_EMERGENCY, and otherwise returns the rendered message. -/
def SsLogger.log (threshold level : LoggerLevel) (fmt : List Char) (args : List Arg) :
    LogOutcome :=
  let message := formatStr fmt args
  ⟨SsLogger.logWrite threshold level message,
   if level = .ll_emergency then some OPERATOR_FAILURE else none,
   if level = .ll_emergency then none else some message⟩

/-- The registry state: a finite name-keyed mapping, modelled as a
lookup function from logger names to registered instances (instances
identified by a tag). -/
def Registry : Type := List Char → Option Nat

/-- Modelled from the spec: the body of SsLogger::addLogger is not under
src/ (only the declaration and the static _loggers map are).  Per the
spec it "inserts or replaces the entry for name". -/
def SsLogger.addLogger (reg : Registry) (name : List Char) (inst : Nat) : Registry :=
  fun n => if n = name then some inst else reg n

/-- Modelled from the spec: the body of SsLogger::removeLogger is not
under src/.  Per the spec it "removes the entry, returning whether an
entry existed"; on an unregistered name it is a no-op reporting not
found. -/
def SsLogger.removeLogger (reg : Registry) (name : List Char) : Bool × Registry :=
  ((reg name).isSome, fun n => if n = name then none else reg n)

/-- Lookup of a named logger in the registry. -/
def SsLogger.lookupLogger (reg : Registry) (name : List Char) : Option Nat :=
  reg name

/-! Helper lemmas. -/

theorem visitImpl_eq_of_lt {α : Type} (t : List Arg) (f : Arg → α) :
    ∀ (n idx : Nat), idx < n →
      VisitImpl.visit n t idx f = some (f (t.getD idx (Arg.str []))) := by
  intro n
  induction n with
  | zero => intro idx h; omega
  | succ n ih =>
    intro idx h
    by_cases hi : idx = n
    · subst hi; simp [VisitImpl.visit]
    · have h2 : idx < n := by omega
      simp [VisitImpl.visit, hi, ih idx h2]

theorem visitImpl_eq_none {α : Type} (t : List Arg) (f : Arg → α) :
    ∀ (n idx : Nat), n ≤ idx → VisitImpl.visit n t idx f = none := by
  intro n
  induction n with
  | zero => intro idx _; rfl
  | succ n ih =>
    intro idx h
    have hi : idx ≠ n := by omega
    simp [VisitImpl.visit, hi, ih idx (by omega)]

theorem visit_eq_of_lt {α : Type} (t : List Arg) (idx : Nat) (f : Arg → α)
    (h : idx < t.length) :
    visit t idx f = some (f (t.getD idx (Arg.str []))) :=
  visitImpl_eq_of_lt t f t.length idx h

theorem visit_eq_none {α : Type} (t : List Arg) (idx : Nat) (f : Arg → α)
    (h : t.length ≤ idx) : visit t idx f = none :=
  visitImpl_eq_none t f t.length idx h

theorem skipAlnum_le (fmt : List Char) (j : Nat) : j ≤ skipAlnum fmt j :=
  Nat.le_add_right j _

theorem drop_eq_getD_cons {α : Type} (d : α) :
    ∀ (l : List α) (i : Nat), i < l.length →
      l.drop i = l.getD i d :: l.drop (i + 1) := by
  intro l
  induction l with
  | nil => intro i h; simp at h
  | cons a as ih =>
    intro i h
    cases i with
    | zero => simp
    | succ i =>
      have h2 : i < as.length := by simpa using h
      simpa using ih i h2

theorem getD_take_of_lt {α : Type} (d : α) :
    ∀ (l : List α) (k i : Nat), i < k → (l.take k).getD i d = l.getD i d := by
  intro l
  induction l with
  | nil => intro k i _; simp
  | cons a as ih =>
    intro k i h
    cases k with
    | zero => omega
    | succ k =>
      cases i with
      | zero => simp
      | succ i => simpa using ih k i (by omega)

theorem formatAux_isSome (fmt : List Char) (tuple : List Arg) :
    ∀ (fuel i index : Nat) (pr : Printer), fmt.length ≤ fuel + i →
      index ≤ tuple.length → (formatAux fmt tuple fuel i index pr).isSome := by
  intro fuel
  induction fuel with
  | zero =>
    intro i index pr hf _
    have hi : ¬ i < fmt.length := by omega
    simp [formatAux, hi]
  | succ fuel ih =>
    intro i index pr hf hidx
    by_cases hi : i < fmt.length
    · by_cases hc : charAt fmt i = '%'
      · by_cases hc2 : charAt fmt (i + 1) = '%'
        · obtain ⟨r, hr⟩ := Option.isSome_iff_exists.mp
            (ih (i + 2) index pr (by omega) hidx)
          simp [formatAux, hi, hc, hc2, hr]
        · by_cases ha : index < tuple.length
          · have hv := visit_eq_of_lt tuple index
              (fun a => a.render (if charAt fmt (i + 1) = 'x'
                then pr.setFlag else pr).hexBase) ha
            have hs : i + 2 ≤ skipAlnum fmt (i + 2) := skipAlnum_le fmt (i + 2)
            obtain ⟨r, hr⟩ := Option.isSome_iff_exists.mp
              (ih (skipAlnum fmt (i + 2)) (index + 1)
                (if charAt fmt (i + 1) = 'x' then pr.setFlag else pr).afterPrint
                (by omega) (by omega))
            simp [formatAux, hi, hc, hc2, ha, hv, hr]
          · obtain ⟨r, hr⟩ := Option.isSome_iff_exists.mp
              (ih (i + 2) index
                (if charAt fmt (i + 1) = 'x' then pr.setFlag else pr).afterPrint
                (by omega) hidx)
            simp [formatAux, hi, hc, hc2, ha, hr]
      · obtain ⟨r, hr⟩ := Option.isSome_iff_exists.mp
          (ih (i + 1) index pr (by omega) hidx)
        simp [formatAux, hi, hc, hr]
    · simp [formatAux, hi]

theorem formatRun_isSome (fmt : List Char) (args : List Arg) :
    (formatRun fmt args).isSome :=
  formatAux_isSome fmt args fmt.length 0 0 Printer.init (by omega) (by omega)

theorem format_isSome (fmt : List Char) (args : List Arg) :
    (format fmt args).isSome := by
  obtain ⟨r, hr⟩ := Option.isSome_iff_exists.mp (formatRun_isSome fmt args)
  simp [format, hr]

theorem format_eq_formatStr (fmt : List Char) (args : List Arg) :
    format fmt args = some (formatStr fmt args) := by
  obtain ⟨r, hr⟩ := Option.isSome_iff_exists.mp (format_isSome fmt args)
  simp [formatStr, hr]

theorem formatAux_eq_list (fmt : List Char) (tuple : List Arg) :
    ∀ (fuel i index : Nat) (pr : Printer), index ≤ tuple.length →
      formatAux fmt tuple fuel i index pr
        = (formatAuxL fmt fuel i (tuple.drop index) pr).map
            (fun r => (r.1, tuple.length - r.2.length)) := by
  intro fuel
  induction fuel with
  | zero =>
    intro i index pr hidx
    by_cases hi : i < fmt.length
    · simp [formatAux, formatAuxL, hi]
    · have hlen : tuple.length - (tuple.length - index) = index := by omega
      simp [formatAux, formatAuxL, hi, List.length_drop, hlen]
  | succ fuel ih =>
    intro i index pr hidx
    by_cases hi : i < fmt.length
    · by_cases hc : charAt fmt i = '%'
      · by_cases hc2 : charAt fmt (i + 1) = '%'
        · rw [show formatAux fmt tuple (fuel + 1) i index pr
              = (formatAux fmt tuple fuel (i + 2) index pr).map
                  (fun r => ('%' :: r.1, r.2)) by simp [formatAux, hi, hc, hc2]]
          rw [ih (i + 2) index pr hidx]
          cases hL : formatAuxL fmt fuel (i + 2) (tuple.drop index) pr with
          | none => simp [formatAuxL, hi, hc, hc2, hL]
          | some r => simp [formatAuxL, hi, hc, hc2, hL]
        · by_cases ha : index < tuple.length
          · have hdrop := drop_eq_getD_cons (Arg.str []) tuple index ha
            have hv := visit_eq_of_lt tuple index
              (fun a => a.render
                (if charAt fmt (i + 1) = 'x' then pr.setFlag else pr).hexBase) ha
            rw [show formatAux fmt tuple (fuel + 1) i index pr
                = (formatAux fmt tuple fuel (skipAlnum fmt (i + 2)) (index + 1)
                    (if charAt fmt (i + 1) = 'x' then pr.setFlag else pr).afterPrint).map
                    (fun r => ((if charAt fmt (i + 1) = 'x' then ['0', 'x'] else [])
                      ++ (tuple.getD index (Arg.str [])).render
                          (if charAt fmt (i + 1) = 'x' then pr.setFlag else pr).hexBase
                      ++ r.1, r.2)) by simp [formatAux, hi, hc, hc2, ha, hv]]
            rw [ih (skipAlnum fmt (i + 2)) (index + 1) _ (by omega)]
            cases hL : formatAuxL fmt fuel (skipAlnum fmt (i + 2))
                (tuple.drop (index + 1))
                (if charAt fmt (i + 1) = 'x' then pr.setFlag else pr).afterPrint with
            | none => simp [formatAuxL, hi, hc, hc2, hdrop, hL]
            | some r => simp [formatAuxL, hi, hc, hc2, hdrop, hL]
          · have hix : index = tuple.length := by omega
            have hd : tuple.drop index = [] := by
              rw [hix]; exact List.drop_length tuple
            rw [show formatAux fmt tuple (fuel + 1) i index pr
                = (formatAux fmt tuple fuel (i + 2) index
                    (if charAt fmt (i + 1) = 'x' then pr.setFlag else pr).afterPrint).map
                    (fun r => ((if charAt fmt (i + 1) = 'x' then ['0', 'x'] else [])
                      ++ '%' :: r.1, r.2)) by simp [formatAux, hi, hc, hc2, ha]]
            rw [ih (i + 2) index _ hidx, hd]
            cases hL : formatAuxL fmt fuel (i + 2) ([] : List Arg)
                (if charAt fmt (i + 1) = 'x' then pr.setFlag else pr).afterPrint with
            | none => simp [formatAuxL, hi, hc, hc2, hL]
            | some r => simp [formatAuxL, hi, hc, hc2, hL]
      · rw [show formatAux fmt tuple (fuel + 1) i index pr
            = (formatAux fmt tuple fuel (i + 1) index pr).map
                (fun r => (charAt fmt i :: r.1, r.2)) by simp [formatAux, hi, hc]]
        rw [ih (i + 1) index pr hidx]
        cases hL : formatAuxL fmt fuel (i + 1) (tuple.drop index) pr with
        | none => simp [formatAuxL, hi, hc, hL]
        | some r => simp [formatAuxL, hi, hc, hL]
    · have hlen : tuple.length - (tuple.length - index) = index := by omega
      simp [formatAux, formatAuxL, hi, List.length_drop, hlen]

theorem formatAuxL_take (fmt : List Char) :
    ∀ (fuel i : Nat) (rem : List Arg) (pr : Printer) (out : List Char) (rem2 : List Arg),
      formatAuxL fmt fuel i rem pr = some (out, rem2) →
      ∃ pre, rem = pre ++ rem2 ∧ formatAuxL fmt fuel i pre pr = some (out, []) := by
  intro fuel
  induction fuel with
  | zero =>
    intro i rem pr out rem2 h
    by_cases hi : i < fmt.length
    · simp [formatAuxL, hi] at h
    · simp only [formatAuxL, hi, if_false, Option.some.injEq, Prod.mk.injEq] at h
      obtain ⟨h1, h2⟩ := h
      subst h1; subst h2
      exact ⟨[], rfl, by simp [formatAuxL, hi]⟩
  | succ fuel ih =>
    intro i rem pr out rem2 h
    by_cases hi : i < fmt.length
    · by_cases hc : charAt fmt i = '%'
      · by_cases hc2 : charAt fmt (i + 1) = '%'
        · simp only [formatAuxL, hi, hc, hc2, if_true, if_false, ite_true, ite_false] at h
          cases hL : formatAuxL fmt fuel (i + 2) rem pr with
          | none => rw [hL] at h; simp at h
          | some r =>
            rw [hL] at h
            simp only [Option.map_some', Option.some.injEq, Prod.mk.injEq] at h
            obtain ⟨h1, h2⟩ := h
            subst h1; subst h2
            obtain ⟨pre, hpre, hrun⟩ := ih (i + 2) rem pr r.1 r.2 hL
            exact ⟨pre, hpre, by simp [formatAuxL, hi, hc, hc2, hrun]⟩
        · cases rem with
          | nil =>
            simp only [formatAuxL, hi, hc, hc2, if_true, if_false, ite_true, ite_false] at h
            cases hL : formatAuxL fmt fuel (i + 2) ([] : List Arg)
                (if charAt fmt (i + 1) = 'x' then pr.setFlag else pr).afterPrint with
            | none => rw [hL] at h; simp at h
            | some r =>
              rw [hL] at h
              simp only [Option.map_some', Option.some.injEq, Prod.mk.injEq] at h
              obtain ⟨h1, h2⟩ := h
              subst h1
              obtain ⟨pre, hpre, hrun⟩ := ih (i + 2) [] _ r.1 r.2 hL
              have hQ := List.append_eq_nil.mp hpre.symm
              rw [hQ.1] at hrun
              refine ⟨[], by simp [← h2, hQ.2], ?_⟩
              simp [formatAuxL, hi, hc, hc2, hrun]
          | cons a rest =>
            simp only [formatAuxL, hi, hc, hc2, if_true, if_false, ite_true, ite_false] at h
            cases hL : formatAuxL fmt fuel (skipAlnum fmt (i + 2)) rest
                (if charAt fmt (i + 1) = 'x' then pr.setFlag else pr).afterPrint with
            | none => rw [hL] at h; simp at h
            | some r =>
              rw [hL] at h
              simp only [Option.map_some', Option.some.injEq, Prod.mk.injEq] at h
              obtain ⟨h1, h2⟩ := h
              subst h1; subst h2
              obtain ⟨pre, hpre, hrun⟩ := ih (skipAlnum fmt (i + 2)) rest _ r.1 r.2 hL
              refine ⟨a :: pre, by simp [hpre], ?_⟩
              simp [formatAuxL, hi, hc, hc2, hrun]
      · simp only [formatAuxL, hi, hc, if_true, if_false, ite_true, ite_false] at h
        cases hL : formatAuxL fmt fuel (i + 1) rem pr with
        | none => rw [hL] at h; simp at h
        | some r =>
          rw [hL] at h
          simp only [Option.map_some', Option.some.injEq, Prod.mk.injEq] at h
          obtain ⟨h1, h2⟩ := h
          subst h1; subst h2
          obtain ⟨pre, hpre, hrun⟩ := ih (i + 1) rem pr r.1 r.2 hL
          exact ⟨pre, hpre, by simp [formatAuxL, hi, hc, hrun]⟩
    · simp only [formatAuxL, hi, if_false, Option.some.injEq, Prod.mk.injEq] at h
      obtain ⟨h1, h2⟩ := h
      subst h1; subst h2
      exact ⟨[], rfl, by simp [formatAuxL, hi]⟩

theorem getD_mem {α : Type} (d : α) :
    ∀ (l : List α) (j : Nat), j < l.length → l.getD j d ∈ l := by
  intro l
  induction l with
  | nil => intro j h; simp at h
  | cons a as ih =>
    intro j h
    cases j with
    | zero => simp
    | succ j =>
      have hm := ih j (by simpa using h)
      simp only [List.getD_cons_succ, List.mem_cons]
      exact Or.inr hm

theorem formatAux_no_pct (fmt : List Char) (tuple : List Arg) :
    ∀ (fuel i index : Nat) (pr : Printer), fmt.length ≤ fuel + i →
      (∀ j, i ≤ j → j < fmt.length → charAt fmt j ≠ '%') →
      formatAux fmt tuple fuel i index pr = some (fmt.drop i, index) := by
  intro fuel
  induction fuel with
  | zero =>
    intro i index pr hf _
    have hi : ¬ i < fmt.length := by omega
    have hd : fmt.drop i = [] := List.drop_eq_nil_of_le (by omega)
    simp [formatAux, hi, hd]
  | succ fuel ih =>
    intro i index pr hf hp
    by_cases hi : i < fmt.length
    · have hc : charAt fmt i ≠ '%' := hp i (Nat.le_refl i) hi
      have hrec := ih (i + 1) index pr (by omega) (fun j hj1 hj2 => hp j (by omega) hj2)
      have hstep : formatAux fmt tuple (fuel + 1) i index pr
          = (formatAux fmt tuple fuel (i + 1) index pr).map
              (fun r => (charAt fmt i :: r.1, r.2)) := by
        simp [formatAux, hi, hc]
      rw [hstep, hrec, drop_eq_getD_cons nulChar fmt i hi]
      simp [charAt]
    · have hd : fmt.drop i = [] := List.drop_eq_nil_of_le (by omega)
      simp [formatAux, hi, hd]

/-! The claims. -/

/-- Claim C1, counterexample: the level-keyed entry points are declared
void, so a verbose call does not return the rendered message text ("hi")
to the caller. -/
theorem claim_C1_counterexample :
    ¬ (SsLogger.verbose LoggerLevel.ll_info ['h', 'i'] []).returned
        = some (formatStr ['h', 'i'] []) := by
  decide

/-- Claim C1, amended: the six level-keyed logging entry points return
nothing (they are void); the level-parameterized log entry point is the
one returning the rendered message text, for every non-emergency level,
independent of whether the message was written to the output
destination. -/
theorem claim_C1 : ∀ (th : LoggerLevel) (fmt : List Char) (args : List Arg),
    (SsLogger.verbose th fmt args).returned = none
    ∧ (SsLogger.debug th fmt args).returned = none
    ∧ (SsLogger.info th fmt args).returned = none
    ∧ (SsLogger.warning th fmt args).returned = none
    ∧ (SsLogger.error th fmt args).returned = none
    ∧ (SsLogger.emergency th fmt args).returned = none
    ∧ (∀ lv, lv ≠ LoggerLevel.ll_emergency →
        (SsLogger.log th lv fmt args).returned = some (formatStr fmt args)) := by
  intro th fmt args
  refine ⟨rfl, rfl, rfl, rfl, rfl, rfl, ?_⟩
  intro lv hlv
  simp [SsLogger.log, hlv]

/-- Claim C1, witness for the amended claim. -/
theorem claim_C1_witness :
    (SsLogger.log LoggerLevel.ll_info LoggerLevel.ll_error ['h', 'i'] []).returned
      = some (formatStr ['h', 'i'] []) :=
  (claim_C1 LoggerLevel.ll_info ['h', 'i'] []).2.2.2.2.2.2 LoggerLevel.ll_error (by decide)

/-- Claim C2: at a %x token the engine emits the literal prefix 0x,
renders exactly the argument consumed there in hexadecimal, and
continues with the clean printer state (the one-shot flag is cleared
before any later argument is rendered); an ordinary substitution from
the clean state renders the consumed argument in its natural (decimal)
representation. -/
theorem claim_C2 :
    (∀ (fmt : List Char) (tuple : List Arg) (fuel i index : Nat) (pr : Printer),
      i < fmt.length → charAt fmt i = '%' → charAt fmt (i + 1) = 'x' →
      index < tuple.length →
      formatAux fmt tuple (fuel + 1) i index pr
        = (formatAux fmt tuple fuel (skipAlnum fmt (i + 2)) (index + 1) Printer.init).map
            (fun r => ('0' :: 'x' :: (tuple.getD index (Arg.str [])).render true ++ r.1,
              r.2)))
    ∧ (∀ (fmt : List Char) (tuple : List Arg) (fuel i index : Nat),
      i < fmt.length → charAt fmt i = '%' → charAt fmt (i + 1) ≠ '%' →
      charAt fmt (i + 1) ≠ 'x' → index < tuple.length →
      formatAux fmt tuple (fuel + 1) i index Printer.init
        = (formatAux fmt tuple fuel (skipAlnum fmt (i + 2)) (index + 1) Printer.init).map
            (fun r => ((tuple.getD index (Arg.str [])).render false ++ r.1, r.2))) := by
  constructor
  · intro fmt tuple fuel i index pr hi hc hcx ha
    have hne : charAt fmt (i + 1) ≠ '%' := by rw [hcx]; decide
    have hv := visit_eq_of_lt tuple index (fun a => a.render true) ha
    simp [formatAux, hi, hc, hne, hcx, ha, hv,
      Printer.setFlag, Printer.afterPrint, Printer.init]
  · intro fmt tuple fuel i index hi hc hcp hcx ha
    have hv := visit_eq_of_lt tuple index (fun a => a.render false) ha
    simp [formatAux, hi, hc, hcp, hcx, ha, hv, Printer.afterPrint, Printer.init]

/-- Claim C2, witness: %x with the argument 255 renders 0x then ff. -/
theorem claim_C2_witness :
    formatAux ['%', 'x'] [Arg.num 255] 2 0 0 Printer.init
      = (formatAux ['%', 'x'] [Arg.num 255] 1 (skipAlnum ['%', 'x'] 2) 1 Printer.init).map
          (fun r => ('0' :: 'x' :: ([Arg.num 255].getD 0 (Arg.str [])).render true ++ r.1,
            r.2)) :=
  claim_C2.1 ['%', 'x'] [Arg.num 255] 1 0 0 Printer.init
    (by decide) (by decide) (by decide) (by decide)

/-- Claim C3: a substitution point reached after all arguments are
consumed emits a literal percent character (preceded by 0x when the
token was %x) and scanning continues; moreover the whole engine always
returns normally, never an error. -/
theorem claim_C3 :
    (∀ (fmt : List Char) (tuple : List Arg) (fuel i index : Nat) (pr : Printer),
      i < fmt.length → charAt fmt i = '%' → charAt fmt (i + 1) ≠ '%' →
      tuple.length ≤ index →
      formatAux fmt tuple (fuel + 1) i index pr
        = (formatAux fmt tuple fuel (i + 2) index
            ((if charAt fmt (i + 1) = 'x' then pr.setFlag else pr).afterPrint)).map
            (fun r => ((if charAt fmt (i + 1) = 'x' then ['0', 'x'] else [])
              ++ '%' :: r.1, r.2)))
    ∧ (∀ (fmt : List Char) (args : List Arg), (format fmt args).isSome = true) := by
  constructor
  · intro fmt tuple fuel i index pr hi hc hc2 ha
    have ha2 : ¬ index < tuple.length := by omega
    simp [formatAux, hi, hc, hc2, ha2]
  · exact fun fmt args => format_isSome fmt args

/-- Claim C3, witness: "a%s" with no arguments hits the exhausted branch
at position 1. -/
theorem claim_C3_witness :
    formatAux ['a', '%', 's'] [] 4 1 0 Printer.init
      = (formatAux ['a', '%', 's'] [] 3 3 0
          ((if charAt ['a', '%', 's'] 2 = 'x' then Printer.init.setFlag
            else Printer.init).afterPrint)).map
          (fun r => ((if charAt ['a', '%', 's'] 2 = 'x' then ['0', 'x'] else [])
            ++ '%' :: r.1, r.2)) :=
  claim_C3.1 ['a', '%', 's'] [] 3 1 0 Printer.init
    (by decide) (by decide) (by decide) (by decide)

/-- Claim C4: the emergency entry point always records the termination
with OPERATOR_FAILURE after the formatted message has been delivered,
for every threshold; the five other entry points never terminate, and
the level-parameterized log terminates exactly at the emergency
level. -/
theorem claim_C4 : ∀ (th : LoggerLevel) (fmt : List Char) (args : List Arg),
    (SsLogger.emergency th fmt args).exitCode = some OPERATOR_FAILURE
    ∧ (SsLogger.emergency th fmt args).written = some (formatStr fmt args)
    ∧ (SsLogger.verbose th fmt args).exitCode = none
    ∧ (SsLogger.debug th fmt args).exitCode = none
    ∧ (SsLogger.info th fmt args).exitCode = none
    ∧ (SsLogger.warning th fmt args).exitCode = none
    ∧ (SsLogger.error th fmt args).exitCode = none
    ∧ (∀ lv, (SsLogger.log th lv fmt args).exitCode
        = if lv = LoggerLevel.ll_emergency then some OPERATOR_FAILURE else none) := by
  intro th fmt args
  refine ⟨rfl, ?_, rfl, rfl, rfl, rfl, rfl, fun lv => rfl⟩
  cases th <;> rfl

/-- Claim C5: the registry keeps at most one instance per name;
registering twice under one name leaves only the second instance, and
removal reports true exactly once. -/
theorem claim_C5 : ∀ (reg : Registry) (name : List Char) (A B : Nat),
    SsLogger.lookupLogger
        (SsLogger.addLogger (SsLogger.addLogger reg name A) name B) name = some B
    ∧ (SsLogger.removeLogger (SsLogger.addLogger reg name A) name).1 = true
    ∧ (SsLogger.removeLogger
        ((SsLogger.removeLogger (SsLogger.addLogger reg name A) name).2) name).1
        = false := by
  intro reg name A B
  refine ⟨?_, ?_, ?_⟩ <;>
    simp [SsLogger.lookupLogger, SsLogger.addLogger, SsLogger.removeLogger]

/-- Claim C6: every %% in the format string renders as exactly one
literal percent character and consumes no argument, in any surrounding
context (any position, any pending argument index, any printer state);
in particular "100%% done" with no arguments renders "100% done". -/
theorem claim_C6 :
    (∀ (fmt : List Char) (tuple : List Arg) (fuel i index : Nat) (pr : Printer),
      i < fmt.length → charAt fmt i = '%' → charAt fmt (i + 1) = '%' →
      formatAux fmt tuple (fuel + 1) i index pr
        = (formatAux fmt tuple fuel (i + 2) index pr).map
            (fun r => ('%' :: r.1, r.2)))
    ∧ format ['1', '0', '0', '%', '%', ' ', 'd', 'o', 'n', 'e'] []
        = some ['1', '0', '0', '%', ' ', 'd', 'o', 'n', 'e'] := by
  constructor
  · intro fmt tuple fuel i index pr hi hc hc2
    simp [formatAux, hi, hc, hc2]
  · decide

/-- Claim C6, witness: the escape step at position 1 of "a%%b". -/
theorem claim_C6_witness :
    formatAux ['a', '%', '%', 'b'] [Arg.num 1] 6 1 0 Printer.init
      = (formatAux ['a', '%', '%', 'b'] [Arg.num 1] 5 3 0 Printer.init).map
          (fun r => ('%' :: r.1, r.2)) :=
  claim_C6.1 ['a', '%', '%', 'b'] [Arg.num 1] 5 1 0 Printer.init
    (by decide) (by decide) (by decide)

/-- Claim C7: the engine equals the refinement model that consumes the
argument list strictly left to right, one argument per substitution
point, in order; and when a run consumes only k of the arguments, the
output equals the output on the first k arguments alone, so trailing
extra arguments never appear in the output. -/
theorem claim_C7 :
    (∀ (fmt : List Char) (args : List Arg),
      formatRun fmt args
        = (formatAuxL fmt fmt.length 0 args Printer.init).map
            (fun r => (r.1, args.length - r.2.length)))
    ∧ (∀ (fmt : List Char) (args : List Arg) (out : List Char) (k : Nat),
      formatRun fmt args = some (out, k) → k < args.length →
      format fmt (args.take k) = some out) := by
  constructor
  · intro fmt args
    have h := formatAux_eq_list fmt args fmt.length 0 0 Printer.init (Nat.zero_le _)
    rw [formatRun, h, List.drop_zero]
  · intro fmt args out k hrun hk
    have heq := formatAux_eq_list fmt args fmt.length 0 0 Printer.init (Nat.zero_le _)
    rw [formatRun, heq, List.drop_zero] at hrun
    cases hL : formatAuxL fmt fmt.length 0 args Printer.init with
    | none => rw [hL] at hrun; simp at hrun
    | some r =>
      rw [hL] at hrun
      simp only [Option.map_some', Option.some.injEq, Prod.mk.injEq] at hrun
      obtain ⟨h1, h2⟩ := hrun
      obtain ⟨pre, hpre, hrunp⟩ :=
        formatAuxL_take fmt fmt.length 0 args Printer.init r.1 r.2 hL
      have hlen : pre.length = k := by
        have hl : args.length = pre.length + r.2.length := by rw [hpre]; simp
        omega
      have htake : args.take k = pre := by
        rw [hpre, ← hlen]
        exact List.take_left pre r.2
      have heqp := formatAux_eq_list fmt pre fmt.length 0 0 Printer.init (Nat.zero_le _)
      rw [htake, format, formatRun, heqp, List.drop_zero, hrunp]
      simp [h1]

/-- Claim C7, witness: "%s" with two arguments consumes only the first;
the run on its one-argument prefix produces the same output. -/
theorem claim_C7_witness :
    format ['%', 's'] (List.take 1 [Arg.num 1, Arg.num 2]) = some ['1'] :=
  claim_C7.2 ['%', 's'] [Arg.num 1, Arg.num 2] ['1'] 1 (by decide) (by decide)

/-- Claim C8: a format string without any percent character renders as
itself, for every argument list. -/
theorem claim_C8 : ∀ (fmt : List Char) (args : List Arg),
    (∀ c ∈ fmt, c ≠ '%') → format fmt args = some fmt := by
  intro fmt args h
  have h2 : ∀ j, 0 ≤ j → j < fmt.length → charAt fmt j ≠ '%' := by
    intro j _ hj
    exact h _ (getD_mem nulChar fmt j hj)
  have hr := formatAux_no_pct fmt args fmt.length 0 0 Printer.init (by omega) h2
  simp [format, formatRun, hr]

/-- Claim C8, witness: "hi" with one argument renders as "hi". -/
theorem claim_C8_witness : format ['h', 'i'] [Arg.num 5] = some ['h', 'i'] :=
  claim_C8 ['h', 'i'] [Arg.num 5] (by decide)

/-- Claim C9: the public formatting entry point never triggers the
assertion of the zero-arity visit base case (it always produces a
result), while calling the runtime indexed access directly with an index
at or beyond the argument count does hit the assertion. -/
theorem claim_C9 :
    (∀ (fmt : List Char) (args : List Arg), (format fmt args).isSome = true)
    ∧ (∀ (tuple : List Arg) (idx : Nat) (g : Arg → List Char),
        tuple.length ≤ idx → visit tuple idx g = none) :=
  ⟨fun fmt args => format_isSome fmt args,
   fun tuple idx g h => visit_eq_none tuple idx g h⟩

/-- Claim C9, witness: format succeeds on a sample input, and direct
misuse of visit with an out-of-range index yields the assertion. -/
theorem claim_C9_witness :
    (format ['a', '%', 's'] []).isSome = true
    ∧ visit [Arg.num 3] 2 (fun a => a.render false) = none :=
  ⟨claim_C9.1 ['a', '%', 's'] [],
   claim_C9.2 [Arg.num 3] 2 (fun a => a.render false) (by decide)⟩

/-- Claim C10: at a percent character not followed by a second percent,
the character right after the percent is consumed (scanning resumes at
least two positions further) and is never copied to the output: with
arguments exhausted the step emits a literal percent and resumes right
after the consumed character, with an argument available the step emits
its rendering and resumes past the following alphanumeric run; in
particular "% a" with no arguments renders "%a" and "%s" with no
arguments renders "%". -/
theorem claim_C10 :
    (∀ (fmt : List Char) (tuple : List Arg) (fuel i index : Nat) (pr : Printer),
      i < fmt.length → charAt fmt i = '%' → charAt fmt (i + 1) ≠ '%' →
      (tuple.length ≤ index →
        formatAux fmt tuple (fuel + 1) i index pr
          = (formatAux fmt tuple fuel (i + 2) index
              ((if charAt fmt (i + 1) = 'x' then pr.setFlag else pr).afterPrint)).map
              (fun r => ((if charAt fmt (i + 1) = 'x' then ['0', 'x'] else [])
                ++ '%' :: r.1, r.2)))
      ∧ (index < tuple.length →
        formatAux fmt tuple (fuel + 1) i index pr
          = (formatAux fmt tuple fuel (skipAlnum fmt (i + 2)) (index + 1)
              ((if charAt fmt (i + 1) = 'x' then pr.setFlag else pr).afterPrint)).map
              (fun r => ((if charAt fmt (i + 1) = 'x' then ['0', 'x'] else [])
                ++ (tuple.getD index (Arg.str [])).render
                    ((if charAt fmt (i + 1) = 'x' then pr.setFlag else pr).hexBase)
                ++ r.1, r.2)))
      ∧ i + 2 ≤ skipAlnum fmt (i + 2))
    ∧ format ['%', ' ', 'a'] [] = some ['%', 'a']
    ∧ format ['%', 's'] [] = some ['%'] := by
  refine ⟨?_, by decide, by decide⟩
  intro fmt tuple fuel i index pr hi hc hc2
  refine ⟨?_, ?_, skipAlnum_le fmt (i + 2)⟩
  · intro ha
    have ha2 : ¬ index < tuple.length := by omega
    simp [formatAux, hi, hc, hc2, ha2]
  · intro ha
    have hv := visit_eq_of_lt tuple index
      (fun a => a.render (if charAt fmt (i + 1) = 'x' then pr.setFlag else pr).hexBase) ha
    simp [formatAux, hi, hc, hc2, ha, hv]

/-- Claim C10, witness: the exhausted step of "%s" with no arguments
consumes the s and emits the literal percent. -/
theorem claim_C10_witness :
    formatAux ['%', 's'] [] 2 0 0 Printer.init
      = (formatAux ['%', 's'] [] 1 2 0
          ((if charAt ['%', 's'] 1 = 'x' then Printer.init.setFlag
            else Printer.init).afterPrint)).map
          (fun r => ((if charAt ['%', 's'] 1 = 'x' then ['0', 'x'] else [])
            ++ '%' :: r.1, r.2)) :=
  (claim_C10.1 ['%', 's'] [] 1 0 0 Printer.init
    (by decide) (by decide) (by decide)).1 (by decide)

end Shadowsocks
